import Mathlib

/-!
TI INA260 sysfs driver (`ti_ina260.c`): embedding and verified properties.

The three sysfs read handlers `current_show`, `voltage_show` and `power_show`
are embedded as state-passing functions over an explicit world (the per-device
private data with its mutex, plus an event log).  The I2C adapter is an
arbitrary function from the submitted messages to a status and the bytes it
stored into the read buffer.  C integer arithmetic is modelled on `Nat`/`Int`
with explicit range checks and reductions modulo `2^32`.
-/

namespace Ina260

/-! ## Machine-level helpers -/

/-- Byte order of the host CPU. -/
inductive Endian
  | little
  | big
  deriving DecidableEq

/-- Ways in which a handler fails to return a value in the sequential model. -/
inductive Fault
  /-- Calling `mutex_lock` on a mutex that is already held never returns. -/
  | blocked
  /-- Signed overflow in an `int` multiplication (undefined behaviour). -/
  | signed_overflow
  deriving DecidableEq

/-- Largest value of a 32-bit `int`. -/
def INT_MAX : Int := 2147483647

/-- Smallest value of a 32-bit `int`. -/
def INT_MIN : Int := -2147483648

/-- Multiplication of two `int` operands; overflow is a fault. -/
def mul_int (a b : Int) : Except Fault Int :=
  if INT_MIN ≤ a * b ∧ a * b ≤ INT_MAX then .ok (a * b) else .error Fault.signed_overflow

/-- Conversion of an `int` to `unsigned int` (reduction modulo `2^32`). -/
def to_uint (v : Int) : Nat := (v % 4294967296).toNat

/-- The kernel's `swab16`: exchange the two bytes of a 16-bit value. -/
def swab16 (v : Nat) : Nat := (v % 256) * 256 + (v / 256) % 256

/-- The kernel's `htons` (`cpu_to_be16`): a byte swap on a little-endian host, the
identity on a big-endian host. -/
def htons (e : Endian) (v : Nat) : Nat :=
  match e with
  | Endian.little => swab16 v
  | Endian.big => v % 65536

/-- Value of an `unsigned short` object whose two bytes in memory, in address
order, are `b0` and `b1`. -/
def load_u16 (e : Endian) (b0 b1 : Nat) : Nat :=
  match e with
  | Endian.little => (b0 % 256) + (b1 % 256) * 256
  | Endian.big => (b0 % 256) * 256 + (b1 % 256)

/-! ## I2C layer -/

/-- Flag `I2C_M_RD` of `linux/i2c.h`: the message is a read. -/
def I2C_M_RD : Nat := 1

/-- One `struct i2c_msg`; `buf` is the content of the buffer the message points to. -/
structure i2c_msg where
  addr : Nat
  flags : Nat
  len : Nat
  buf : List Nat
  deriving DecidableEq

/-- Outcome of one call of the adapter: the returned status (number of messages
transferred, or a negative errno) and the bytes it stored, in reception order,
at the start of the read buffer. -/
structure xfer_result where
  ret : Int
  rx : List Nat

/-- The bus adapter, an arbitrary environment. -/
structure i2c_adapter where
  master_xfer : List i2c_msg → xfer_result

/-- The part of `struct i2c_client` that the handlers use. -/
structure i2c_client where
  addr : Nat
  adapter : i2c_adapter

/-- Memory after the adapter stored `rx` at the start of a buffer holding `buf`:
bytes that were not received keep their previous value. -/
def fill : List Nat → List Nat → List Nat
  | [], _ => []
  | b :: bs, [] => b :: bs
  | _ :: bs, r :: rs => (r % 256) :: fill bs rs

/-! ## Device state and event log -/

/-- A `struct device_attribute`: file name and mode (the `show` pointer is the
handler of the same name). -/
structure device_attribute where
  name : String
  mode : Nat
  deriving DecidableEq

/-- The driver's `struct ina260_data`; `lock` is `true` while the mutex is held. -/
structure ina260_data where
  current_attribute : device_attribute
  voltage_attribute : device_attribute
  power_attribute : device_attribute
  lock : Bool
  deriving DecidableEq

/-- Observable steps of a handler. -/
inductive Event
  | acquire
  | transfer (msgs : List i2c_msg)
  | release
  | format (whole frac : Nat)
  deriving DecidableEq

/-- The world a handler runs in: the private data of the device and the log of
events so far, each recorded with the state of the mutex right after it. -/
structure World where
  dev : ina260_data
  trace : List (Event × Bool)

/-- Append an event to the log, with the current state of the mutex. -/
def emit (ev : Event) (w : World) : World :=
  { w with trace := w.trace ++ [(ev, w.dev.lock)] }

/-- In a sequential run `mutex_lock` returns only if the mutex is free. -/
def mutex_lock (w : World) : Except Fault World :=
  if w.dev.lock then .error Fault.blocked
  else .ok (emit Event.acquire { w with dev := { w.dev with lock := true } })

/-- The kernel's `mutex_unlock`: the mutex becomes free. -/
def mutex_unlock (w : World) : World :=
  emit Event.release { w with dev := { w.dev with lock := false } }

/-- The kernel's `i2c_transfer(adapter, msgs, num)`: hands the messages to the
adapter and returns its status with the bytes it stored. -/
def i2c_transfer (adapter : i2c_adapter) (msgs : List i2c_msg) (w : World) :
    World × xfer_result :=
  (emit (Event.transfer msgs) w, adapter.master_xfer msgs)

/-- The call `sprintf(buf, "%u.%u\n", a, b)`: the text stored in `buf` and the
returned number of characters. -/
def sprintf (a b : Nat) : String × Int :=
  let s := Nat.repr a ++ "." ++ Nat.repr b ++ "\n"
  (s, (s.length : Int))

/-- Value of the `unsigned short` sample object after the transfer. -/
def sample (e : Endian) (mem : List Nat) : Nat :=
  load_u16 e (mem.getD 0 0) (mem.getD 1 0)

/-! ## The three handlers -/

/-- Handler `current_show` (source lines 54-81). -/
def current_show (e : Endian) (client : i2c_client) (w : World) :
    Except Fault (World × String × Int) := do
  let i_reg : Nat := 0x01
  let i_data : List Nat := [0, 0]
  let i_msgs : List i2c_msg :=
    [ { addr := client.addr, flags := 0, len := 1, buf := [i_reg] },
      { addr := client.addr, flags := I2C_M_RD, len := 2, buf := i_data } ]
  let w ← mutex_lock w
  let (w, r) := i2c_transfer client.adapter i_msgs w
  let i_data := fill i_data r.rx
  let w := mutex_unlock w
  let v ← mul_int (htons e (sample e i_data)) 125
  let current_i := to_uint v
  let w := emit (Event.format (current_i / 100000) (current_i % 100000)) w
  let (buf, n) := sprintf (current_i / 100000) (current_i % 100000)
  return (w, buf, n)

/-- Handler `voltage_show` (source lines 84-111). -/
def voltage_show (e : Endian) (client : i2c_client) (w : World) :
    Except Fault (World × String × Int) := do
  let v_reg : Nat := 0x02
  let v_data : List Nat := [0, 0]
  let v_msgs : List i2c_msg :=
    [ { addr := client.addr, flags := 0, len := 1, buf := [v_reg] },
      { addr := client.addr, flags := I2C_M_RD, len := 2, buf := v_data } ]
  let w ← mutex_lock w
  let (w, r) := i2c_transfer client.adapter v_msgs w
  let v_data := fill v_data r.rx
  let w := mutex_unlock w
  let v ← mul_int (htons e (sample e v_data)) 125
  let voltage := to_uint v
  let w := emit (Event.format (voltage / 100000) (voltage % 100000)) w
  let (buf, n) := sprintf (voltage / 100000) (voltage % 100000)
  return (w, buf, n)

/-- Handler `power_show` (source lines 120-145). -/
def power_show (e : Endian) (client : i2c_client) (w : World) :
    Except Fault (World × String × Int) := do
  let p_reg : Nat := 0x03
  let p_data : List Nat := [0, 0]
  let p_msgs : List i2c_msg :=
    [ { addr := client.addr, flags := 0, len := 1, buf := [p_reg] },
      { addr := client.addr, flags := I2C_M_RD, len := 2, buf := p_data } ]
  let w ← mutex_lock w
  let (w, r) := i2c_transfer client.adapter p_msgs w
  let p_data := fill p_data r.rx
  let w := mutex_unlock w
  let v ← mul_int (htons e (sample e p_data)) 1000
  let power := to_uint v
  let w := emit (Event.format (power / 100000) (power % 100000)) w
  let (buf, n) := sprintf (power / 100000) (power % 100000)
  return (w, buf, n)

/-- An adapter that succeeds and delivers the two bytes `b0`, `b1`. -/
def deliver (b0 b1 : Nat) : i2c_adapter :=
  { master_xfer := fun msgs => { ret := (msgs.length : Int), rx := [b0, b1] } }

/-- An adapter that fails with status `err` and leaves the read buffer untouched. -/
def failing (err : Int) : i2c_adapter :=
  { master_xfer := fun _ => { ret := err, rx := [] } }

/-- A freshly probed device (`ina260_probe`): attribute files named, mutex free. -/
def probed : ina260_data :=
  { current_attribute := { name := "total_current", mode := 0o444 },
    voltage_attribute := { name := "total_voltage", mode := 0o444 },
    power_attribute := { name := "total_power", mode := 0o444 },
    lock := false }

/-- The world right after probing: nothing has happened yet. -/
def World.fresh : World := { dev := probed, trace := [] }

/-! ## Vocabulary for the statements -/

/-- The three handlers share one shape; this is that shape with the register
selector and the multiplier as parameters.  It is used only to state and prove
facts about the three handlers above. -/
def show_generic (reg mult : Nat) (e : Endian) (client : i2c_client) (w : World) :
    Except Fault (World × String × Int) := do
  let data : List Nat := [0, 0]
  let msgs : List i2c_msg :=
    [ { addr := client.addr, flags := 0, len := 1, buf := [reg] },
      { addr := client.addr, flags := I2C_M_RD, len := 2, buf := data } ]
  let w ← mutex_lock w
  let (w, r) := i2c_transfer client.adapter msgs w
  let data := fill data r.rx
  let w := mutex_unlock w
  let v ← mul_int (htons e (sample e data)) mult
  let value := to_uint v
  let w := emit (Event.format (value / 100000) (value % 100000)) w
  let (buf, n) := sprintf (value / 100000) (value % 100000)
  return (w, buf, n)

/-- The message array a handler submits for register `reg` of the device at `addr`. -/
def read_msgs (addr reg : Nat) : List i2c_msg :=
  [ { addr := addr, flags := 0, len := 1, buf := [reg] },
    { addr := addr, flags := I2C_M_RD, len := 2, buf := [0, 0] } ]

/-- Content of the two-byte sample buffer after the adapter served `read_msgs`. -/
def received (client : i2c_client) (reg : Nat) : List Nat :=
  fill [0, 0] (client.adapter.master_xfer (read_msgs client.addr reg)).rx

/-- Big-endian value of the first two bytes of a buffer. -/
def be16 (mem : List Nat) : Nat :=
  (mem.getD 0 0 % 256) * 256 + mem.getD 1 0 % 256

/-- The raw register value a handler works with: the big-endian value of the
bytes received for register `reg`. -/
def raw_sample (client : i2c_client) (reg : Nat) : Nat :=
  be16 (received client reg)

/-- The text `"<whole>.<fraction>\n"` for a raw value and a multiplier. -/
def reading (mult r : Nat) : String :=
  Nat.repr (r * mult / 100000) ++ "." ++ Nat.repr (r * mult % 100000) ++ "\n"

/-- The four events of one handler run, with the state of the mutex after each. -/
def run_events (msgs : List i2c_msg) (whole frac : Nat) : List (Event × Bool) :=
  [ (Event.acquire, true), (Event.transfer msgs, true),
    (Event.release, false), (Event.format whole frac, false) ]

/-- The text a handler printed, if it returned. -/
def printed (r : Except Fault (World × String × Int)) : Option String :=
  match r with
  | .ok (_, s, _) => some s
  | .error _ => none

/-- The count a handler returned, if it returned. -/
def returned (r : Except Fault (World × String × Int)) : Option Int :=
  match r with
  | .ok (_, _, n) => some n
  | .error _ => none

/-- The world a handler left behind, if it returned. -/
def world_after (r : Except Fault (World × String × Int)) : Option World :=
  match r with
  | .ok (w, _, _) => some w
  | .error _ => none

/-- The message arrays of the transfer events of a log, in order. -/
def transfers : List (Event × Bool) → List (List i2c_msg)
  | [] => []
  | (Event.transfer msgs, _) :: rest => msgs :: transfers rest
  | _ :: rest => transfers rest

/-- The whole and fraction pairs of the convert/format events of a log, in order:
the two `unsigned int` values a handler computed and passed to `sprintf`. -/
def formatted : List (Event × Bool) → List (Nat × Nat)
  | [] => []
  | (Event.format whole frac, _) :: rest => (whole, frac) :: formatted rest
  | _ :: rest => formatted rest

/-! ## Reading a printed text as a decimal numeral -/

/-- Value of a string of decimal digits, most significant first. -/
def digits_value (ds : List Char) : Nat :=
  ds.foldl (fun a c => a * 10 + (c.toNat - 48)) 0

/-- The ordinary reading of the numeral `"<w>.<f>"` (a trailing newline is
dropped) as a fraction: numerator `w * 10^k + f` and denominator `10^k`, where
`k` is the number of digits after the point. -/
def decimal_parts (s : String) : Nat × Nat :=
  let body := s.data.filter (fun c => c ≠ '\n')
  let w := body.takeWhile (fun c => c ≠ '.')
  let f := (body.dropWhile (fun c => c ≠ '.')).drop 1
  (digits_value w * 10 ^ f.length + digits_value f, 10 ^ f.length)

/-- The rational number a printed text denotes as a decimal numeral. -/
def decimal_value (s : String) : ℚ :=
  ((decimal_parts s).1 : ℚ) / ((decimal_parts s).2 : ℚ)

/-! ## Concurrent invocations

Every handler runs the same skeleton around the bus: `mutex_lock` (lines 70,
100, 135), `i2c_transfer` (72, 102, 137), `mutex_unlock` (74, 104, 139), then
conversion and `sprintf`.  An invocation is a program counter over that
skeleton; a system is the mutex of one device together with the program
counters of all invocations on it, and a schedule picks which invocation
moves next. -/

/-- Where an invocation of a handler stands. -/
inductive Pc
  /-- About to call `mutex_lock`. -/
  | at_lock
  /-- Holds the mutex, about to call `i2c_transfer`. -/
  | at_transfer
  /-- Inside `i2c_transfer`. -/
  | in_transfer
  /-- Back from `i2c_transfer`, about to call `mutex_unlock`. -/
  | at_unlock
  /-- Past `mutex_unlock`: conversion and `sprintf`. -/
  | at_format
  /-- Returned. -/
  | done
  deriving DecidableEq

/-- The mutex of one device and the position of every invocation on it. -/
structure Sys where
  lock : Bool
  pc : Nat → Pc

/-- Invocation `i` moves by one statement.  `mutex_lock` acquires the mutex
atomically when it is free and otherwise leaves the caller waiting. -/
def Sys.step (i : Nat) (s : Sys) : Sys :=
  match s.pc i with
  | Pc.at_lock =>
    if s.lock then s else { lock := true, pc := Function.update s.pc i Pc.at_transfer }
  | Pc.at_transfer => { s with pc := Function.update s.pc i Pc.in_transfer }
  | Pc.in_transfer => { s with pc := Function.update s.pc i Pc.at_unlock }
  | Pc.at_unlock => { lock := false, pc := Function.update s.pc i Pc.at_format }
  | Pc.at_format => { s with pc := Function.update s.pc i Pc.done }
  | Pc.done => s

/-- After `ina260_probe`: the mutex is free (`mutex_init`) and no invocation has
started. -/
def Sys.init : Sys := { lock := false, pc := fun _ => Pc.at_lock }

/-- Run a schedule: the listed invocations move one statement each, in order. -/
def Sys.run (sched : List Nat) (s : Sys) : Sys :=
  sched.foldl (fun s i => s.step i) s

/-- Positions at which an invocation holds the mutex. -/
def Pc.holds : Pc → Bool
  | Pc.at_transfer => true
  | Pc.in_transfer => true
  | Pc.at_unlock => true
  | _ => false

/-- The mutex invariant: whoever is between `mutex_lock` and `mutex_unlock` has
the mutex marked held, and there is at most one such invocation. -/
def Sys.mutex_inv (s : Sys) : Prop :=
  (∀ i, (s.pc i).holds = true → s.lock = true) ∧
  (∀ i j, (s.pc i).holds = true → (s.pc j).holds = true → i = j)

end Ina260

open Ina260

/-! ## Basic facts -/

theorem current_show_eq_generic : current_show = show_generic 0x01 125 := rfl

theorem voltage_show_eq_generic : voltage_show = show_generic 0x02 125 := rfl

theorem power_show_eq_generic : power_show = show_generic 0x03 1000 := rfl

/-- Reading the sample object and applying `htons` gives the big-endian value of
the two bytes, on either host. -/
theorem htons_load_u16 (e : Endian) (b0 b1 : Nat) :
    htons e (load_u16 e b0 b1) = (b0 % 256) * 256 + b1 % 256 := by
  cases e
  · simp only [htons, load_u16, swab16]; omega
  · simp only [htons, load_u16]; omega

theorem htons_sample (e : Endian) (mem : List Nat) : htons e (sample e mem) = be16 mem := by
  simp only [sample, be16, htons_load_u16]

theorem be16_lt (mem : List Nat) : be16 mem < 65536 := by
  simp only [be16]; omega

theorem raw_sample_lt (client : i2c_client) (reg : Nat) : raw_sample client reg < 65536 :=
  be16_lt _

theorem mul_int_small (r mult : Nat) (hr : r < 65536) (hm : mult ≤ 1000) :
    mul_int (r : Int) (mult : Int) = .ok ((r : Int) * (mult : Int)) := by
  have h : r * mult ≤ 65535 * 1000 := Nat.mul_le_mul (by omega) hm
  have h2 : (r : Int) * (mult : Int) = ((r * mult : Nat) : Int) := by push_cast; rfl
  simp only [mul_int, INT_MIN, INT_MAX]
  rw [if_pos]
  rw [h2]
  constructor <;> omega

theorem to_uint_small (r mult : Nat) (h : r * mult < 4294967296) :
    to_uint ((r : Int) * (mult : Int)) = r * mult := by
  have h2 : (r : Int) * (mult : Int) = ((r * mult : Nat) : Int) := by push_cast; rfl
  rw [h2]
  simp only [to_uint]
  omega

/-- What a handler does from a state with a free mutex. -/
theorem show_generic_ok (reg mult : Nat) (hm : mult ≤ 1000) (e : Endian) (client : i2c_client)
    (w : World) (hw : w.dev.lock = false) :
    show_generic reg mult e client w =
      .ok ({ dev := w.dev,
             trace := w.trace ++ run_events (read_msgs client.addr reg)
               (raw_sample client reg * mult / 100000) (raw_sample client reg * mult % 100000) },
           reading mult (raw_sample client reg),
           ((reading mult (raw_sample client reg)).length : Int)) := by
  have hr := raw_sample_lt client reg
  have hlt : raw_sample client reg * mult < 4294967296 := by
    have : raw_sample client reg * mult ≤ 65535 * 1000 := Nat.mul_le_mul (by omega) hm
    omega
  obtain ⟨dev, tr⟩ := w
  obtain ⟨ca, va, pa, lk⟩ := dev
  simp only at hw
  subst hw
  simp only [show_generic, mutex_lock, mutex_unlock, i2c_transfer, emit, sprintf, bind,
    Except.bind, pure, Except.pure, htons_sample]
  have hs : be16 (fill [0, 0] (client.adapter.master_xfer
      [{ addr := client.addr, flags := 0, len := 1, buf := [reg] },
       { addr := client.addr, flags := I2C_M_RD, len := 2, buf := [0, 0] }]).rx)
        = raw_sample client reg := rfl
  simp [hs, mul_int_small _ _ hr hm, to_uint_small _ _ hlt, reading, run_events, read_msgs]

/-! ## Decimal digits -/

theorem digitChar_toNat (d : Nat) (h : d < 10) : (Nat.digitChar d).toNat - 48 = d := by
  interval_cases d <;> rfl

theorem digitChar_ne_dot (d : Nat) (h : d < 10) : Nat.digitChar d ≠ '.' := by
  interval_cases d <;> decide

/-- The digits produced for `n` extend the accumulator on the left by a dot-free
block whose value is `n`. -/
theorem toDigitsCore_spec (fuel : Nat) : ∀ (n : Nat) (ds : List Char), n < fuel →
    ∃ pre, Nat.toDigitsCore 10 fuel n ds = pre ++ ds ∧ digits_value pre = n ∧
      ∀ c ∈ pre, c ≠ '.' := by
  induction fuel with
  | zero => intro n ds h; omega
  | succ k ih =>
    intro n ds h
    simp only [Nat.toDigitsCore]
    by_cases h0 : n / 10 = 0
    · rw [if_pos h0]
      refine ⟨[Nat.digitChar (n % 10)], rfl, ?_, ?_⟩
      · simp only [digits_value, List.foldl_cons, List.foldl_nil]
        rw [digitChar_toNat _ (Nat.mod_lt _ (by decide))]
        omega
      · intro c hc
        simp only [List.mem_singleton] at hc
        subst hc
        exact digitChar_ne_dot _ (Nat.mod_lt _ (by decide))
    · rw [if_neg h0]
      obtain ⟨pre, hpre, hval, hdot⟩ := ih (n / 10) (Nat.digitChar (n % 10) :: ds) (by omega)
      refine ⟨pre ++ [Nat.digitChar (n % 10)], ?_, ?_, ?_⟩
      · rw [hpre]; simp
      · simp only [digits_value, List.foldl_append, List.foldl_cons, List.foldl_nil]
        rw [digitChar_toNat _ (Nat.mod_lt _ (by decide))]
        have : digits_value pre = List.foldl (fun a c => a * 10 + (c.toNat - 48)) 0 pre := rfl
        rw [← this, hval]; omega
      · intro c hc
        rcases List.mem_append.mp hc with h1 | h1
        · exact hdot c h1
        · simp only [List.mem_singleton] at h1
          subst h1
          exact digitChar_ne_dot _ (Nat.mod_lt _ (by decide))

theorem repr_data (n : Nat) : (Nat.repr n).data = Nat.toDigits 10 n := rfl

theorem digits_value_repr (n : Nat) : digits_value (Nat.repr n).data = n := by
  obtain ⟨pre, hpre, hval, _⟩ := toDigitsCore_spec (n + 1) n [] (Nat.lt_succ_self n)
  rw [repr_data, Nat.toDigits, hpre, List.append_nil, hval]

theorem repr_no_dot (n : Nat) : ∀ c ∈ (Nat.repr n).data, c ≠ '.' := by
  obtain ⟨pre, hpre, _, hdot⟩ := toDigitsCore_spec (n + 1) n [] (Nat.lt_succ_self n)
  rw [repr_data, Nat.toDigits, hpre, List.append_nil]
  exact hdot

/-- Two texts that agree and whose parts before the first dot are dot-free agree
part by part. -/
theorem split_at_dot : ∀ (l1 l2 r1 r2 : List Char),
    (∀ c ∈ l1, c ≠ '.') → (∀ c ∈ l2, c ≠ '.') →
    l1 ++ '.' :: r1 = l2 ++ '.' :: r2 → l1 = l2 ∧ r1 = r2 := by
  intro l1
  induction l1 with
  | nil =>
    intro l2 r1 r2 _ h2 h
    cases l2 with
    | nil => simpa using h
    | cons a t =>
      simp only [List.nil_append, List.cons_append, List.cons.injEq] at h
      exact absurd h.1.symm (h2 a (List.mem_cons_self _ _))
  | cons a t ih =>
    intro l2 r1 r2 h1 h2 h
    cases l2 with
    | nil =>
      simp only [List.nil_append, List.cons_append, List.cons.injEq] at h
      exact absurd h.1 (h1 a (List.mem_cons_self _ _))
    | cons b u =>
      simp only [List.cons_append, List.cons.injEq] at h
      obtain ⟨hl, hr⟩ := ih u r1 r2 (fun c hc => h1 c (List.mem_cons_of_mem _ hc))
        (fun c hc => h2 c (List.mem_cons_of_mem _ hc)) h.2
      exact ⟨by rw [h.1, hl], hr⟩

theorem reading_data (mult r : Nat) : (reading mult r).data =
    (Nat.repr (r * mult / 100000)).data ++
      '.' :: ((Nat.repr (r * mult % 100000)).data ++ ['\n']) := by
  simp [reading, String.data_append]

/-- The printed text determines the raw value. -/
theorem reading_injective (mult : Nat) (hm : 0 < mult) (r1 r2 : Nat)
    (h : reading mult r1 = reading mult r2) : r1 = r2 := by
  have hd := congrArg String.data h
  rw [reading_data, reading_data] at hd
  obtain ⟨hw, hf⟩ := split_at_dot _ _ _ _ (repr_no_dot _) (repr_no_dot _) hd
  have hf2 := List.append_cancel_right hf
  have e1 := congrArg digits_value hw
  have e2 := congrArg digits_value hf2
  rw [digits_value_repr, digits_value_repr] at e1 e2
  have : r1 * mult = r2 * mult := by
    rw [← Nat.div_add_mod (r1 * mult) 100000, ← Nat.div_add_mod (r2 * mult) 100000, e1, e2]
  exact Nat.eq_of_mul_eq_mul_right hm this

/-! ## Consequences of `show_generic_ok` used below -/

theorem printed_generic (reg mult : Nat) (hm : mult ≤ 1000) (e : Endian) (client : i2c_client)
    (w : World) (hw : w.dev.lock = false) :
    printed (show_generic reg mult e client w) = some (reading mult (raw_sample client reg)) := by
  rw [show_generic_ok reg mult hm e client w hw]; rfl

theorem returned_generic (reg mult : Nat) (hm : mult ≤ 1000) (e : Endian) (client : i2c_client)
    (w : World) (hw : w.dev.lock = false) :
    returned (show_generic reg mult e client w) =
      some ((reading mult (raw_sample client reg)).length : Int) := by
  rw [show_generic_ok reg mult hm e client w hw]; rfl

theorem world_after_generic (reg mult : Nat) (hm : mult ≤ 1000) (e : Endian)
    (client : i2c_client) (w : World) (hw : w.dev.lock = false) :
    world_after (show_generic reg mult e client w) =
      some { dev := w.dev,
             trace := w.trace ++ run_events (read_msgs client.addr reg)
               (raw_sample client reg * mult / 100000)
               (raw_sample client reg * mult % 100000) } := by
  rw [show_generic_ok reg mult hm e client w hw]; rfl

/-- A handler started while the mutex is held waits; it never overflows. -/
theorem show_generic_no_overflow (reg mult : Nat) (hm : mult ≤ 1000) (e : Endian)
    (client : i2c_client) (w : World) :
    show_generic reg mult e client w ≠ .error Fault.signed_overflow := by
  by_cases hw : w.dev.lock = false
  · rw [show_generic_ok reg mult hm e client w hw]
    intro h; cases h
  · have hl : w.dev.lock = true := by simpa using hw
    have : show_generic reg mult e client w = .error Fault.blocked := by
      simp [show_generic, mutex_lock, hl, bind, Except.bind]
    rw [this]
    intro h; cases h

/-- An adapter that stores the two bytes of `r` makes `r` the raw sample. -/
theorem raw_sample_of_rx (client : i2c_client) (reg r : Nat) (hr : r < 65536)
    (h : (client.adapter.master_xfer (read_msgs client.addr reg)).rx = [r / 256, r % 256]) :
    raw_sample client reg = r := by
  simp only [raw_sample, received, h, fill, be16, List.getD_cons_zero, List.getD_cons_succ]
  omega

/-- An adapter that stores nothing leaves the initial zero in the sample. -/
theorem raw_sample_of_nil (client : i2c_client) (reg : Nat)
    (h : (client.adapter.master_xfer (read_msgs client.addr reg)).rx = []) :
    raw_sample client reg = 0 := by
  simp only [raw_sample, received, h, fill, be16, List.getD_cons_zero, List.getD_cons_succ]

theorem transfers_append (l1 l2 : List (Event × Bool)) :
    transfers (l1 ++ l2) = transfers l1 ++ transfers l2 := by
  induction l1 with
  | nil => rfl
  | cons x t ih =>
    obtain ⟨ev, b⟩ := x
    cases ev <;> simp [transfers, ih]

theorem formatted_append (l1 l2 : List (Event × Bool)) :
    formatted (l1 ++ l2) = formatted l1 ++ formatted l2 := by
  induction l1 with
  | nil => rfl
  | cons x t ih =>
    obtain ⟨ev, b⟩ := x
    cases ev <;> simp [formatted, ih]

/-- The values a handler computes from a delivered raw value `r`: it returns,
the pair it hands to `sprintf` is the quotient and remainder of the exact
product `r * mult` by 100000, and the text it prints is made of that pair. -/
theorem generic_values (reg mult : Nat) (hm : mult ≤ 1000) (r : Nat) (hr : r < 65536)
    (e : Endian) (client : i2c_client) (w : World) (hw : w.dev.lock = false)
    (hrx : ∀ msgs, (client.adapter.master_xfer msgs).rx = [r / 256, r % 256]) :
    (world_after (show_generic reg mult e client w)).map (fun w1 => formatted w1.trace) =
        some (formatted w.trace ++ [(r * mult / 100000, r * mult % 100000)]) ∧
      printed (show_generic reg mult e client w) =
        some (Nat.repr (r * mult / 100000) ++ "." ++ Nat.repr (r * mult % 100000) ++ "\n") := by
  have h1 := raw_sample_of_rx client reg r hr (hrx _)
  rw [world_after_generic reg mult hm e client w hw, printed_generic reg mult hm e client w hw,
    h1]
  simp only [Option.map_some', formatted_append]
  exact ⟨rfl, rfl⟩

/-! ## The mutex invariant -/

theorem init_mutex_inv : Sys.init.mutex_inv := by
  constructor
  · intro i h; simp [Sys.init, Pc.holds] at h
  · intro i j h; simp [Sys.init, Pc.holds] at h

theorem step_mutex_inv (i : Nat) (s : Sys) (h : s.mutex_inv) : (s.step i).mutex_inv := by
  obtain ⟨hl, hu⟩ := h
  unfold Sys.step
  split
  next hpc =>
    by_cases hlk : s.lock = true
    · rw [if_pos hlk]; exact ⟨hl, hu⟩
    · rw [if_neg hlk]
      have hfree : ∀ k, (s.pc k).holds = true → False := fun k hk => hlk (hl k hk)
      refine ⟨fun _ _ => rfl, ?_⟩
      intro k j hk hj
      by_cases hki : k = i
      · by_cases hji : j = i
        · rw [hki, hji]
        · simp only [Function.update_noteq hji] at hj
          exact (hfree j hj).elim
      · simp only [Function.update_noteq hki] at hk
        exact (hfree k hk).elim
  next hpc =>
    have hi : (s.pc i).holds = true := by rw [hpc]; rfl
    constructor
    · intro k _; exact hl i hi
    · intro k j hk hj
      have hk2 : k = i := by
        by_cases hki : k = i
        · exact hki
        · simp only [Function.update_noteq hki] at hk; exact hu k i hk hi
      have hj2 : j = i := by
        by_cases hji : j = i
        · exact hji
        · simp only [Function.update_noteq hji] at hj; exact hu j i hj hi
      rw [hk2, hj2]
  next hpc =>
    have hi : (s.pc i).holds = true := by rw [hpc]; rfl
    constructor
    · intro k _; exact hl i hi
    · intro k j hk hj
      have hk2 : k = i := by
        by_cases hki : k = i
        · exact hki
        · simp only [Function.update_noteq hki] at hk; exact hu k i hk hi
      have hj2 : j = i := by
        by_cases hji : j = i
        · exact hji
        · simp only [Function.update_noteq hji] at hj; exact hu j i hj hi
      rw [hk2, hj2]
  next hpc =>
    have hi : (s.pc i).holds = true := by rw [hpc]; rfl
    have hnone : ∀ k, (Function.update s.pc i Pc.at_format k).holds = true → False := by
      intro k hk
      by_cases hki : k = i
      · subst hki; simp [Pc.holds] at hk
      · simp only [Function.update_noteq hki] at hk
        exact hki (hu k i hk hi)
    exact ⟨fun k hk => (hnone k hk).elim, fun k j hk _ => (hnone k hk).elim⟩
  next hpc =>
    have hi : (s.pc i).holds = false := by rw [hpc]; rfl
    have hsame : ∀ k, (Function.update s.pc i Pc.done k).holds = true →
        (s.pc k).holds = true := by
      intro k hk
      by_cases hki : k = i
      · subst hki; simp [Pc.holds] at hk
      · simpa only [Function.update_noteq hki] using hk
    exact ⟨fun k hk => hl k (hsame k hk), fun k j hk hj => hu k j (hsame k hk) (hsame j hj)⟩
  next hpc => exact ⟨hl, hu⟩

theorem run_mutex_inv (sched : List Nat) : ∀ s : Sys, s.mutex_inv → (s.run sched).mutex_inv := by
  induction sched with
  | nil => intro s h; exact h
  | cons i rest ih =>
    intro s h
    exact ih (s.step i) (step_mutex_inv i s h)

/-! ## The claims -/

/-- C1: for every raw 16-bit value `r` delivered by the adapter, `current_show`
and `voltage_show` print the unpadded decimal of `r*125 / 100000`, a dot, the
unpadded decimal of `r*125 % 100000` and a newline, `power_show` does the same
with `r*1000`, and each returns the length of the text it printed. -/
theorem C1_show_text (r : Nat) (hr : r < 65536) (e : Endian) (client : i2c_client) (w : World)
    (hw : w.dev.lock = false)
    (hrx : ∀ msgs, (client.adapter.master_xfer msgs).rx = [r / 256, r % 256]) :
    (printed (current_show e client w) =
        some (Nat.repr (r * 125 / 100000) ++ "." ++ Nat.repr (r * 125 % 100000) ++ "\n") ∧
      returned (current_show e client w) =
        some ((Nat.repr (r * 125 / 100000) ++ "." ++ Nat.repr (r * 125 % 100000)
          ++ "\n").length : Int)) ∧
    (printed (voltage_show e client w) =
        some (Nat.repr (r * 125 / 100000) ++ "." ++ Nat.repr (r * 125 % 100000) ++ "\n") ∧
      returned (voltage_show e client w) =
        some ((Nat.repr (r * 125 / 100000) ++ "." ++ Nat.repr (r * 125 % 100000)
          ++ "\n").length : Int)) ∧
    (printed (power_show e client w) =
        some (Nat.repr (r * 1000 / 100000) ++ "." ++ Nat.repr (r * 1000 % 100000) ++ "\n") ∧
      returned (power_show e client w) =
        some ((Nat.repr (r * 1000 / 100000) ++ "." ++ Nat.repr (r * 1000 % 100000)
          ++ "\n").length : Int)) := by
  have h1 := raw_sample_of_rx client 0x01 r hr (hrx _)
  have h2 := raw_sample_of_rx client 0x02 r hr (hrx _)
  have h3 := raw_sample_of_rx client 0x03 r hr (hrx _)
  rw [current_show_eq_generic, voltage_show_eq_generic, power_show_eq_generic]
  rw [printed_generic _ _ (by decide) e client w hw,
    returned_generic _ _ (by decide) e client w hw,
    printed_generic _ _ (by decide) e client w hw,
    returned_generic _ _ (by decide) e client w hw,
    printed_generic _ _ (by decide) e client w hw,
    returned_generic _ _ (by decide) e client w hw, h1, h2, h3]
  exact ⟨⟨rfl, rfl⟩, ⟨rfl, rfl⟩, ⟨rfl, rfl⟩⟩

/-- Witness of C1: raw 1600 with multiplier 125 prints `2.0`, raw 100 with
multiplier 1000 prints `1.0`, raw 65535 with multiplier 125 prints `81.91875`. -/
theorem C1_show_text_witness :
    (printed (current_show Endian.little ⟨0x40, deliver 0x06 0x40⟩ World.fresh) = some "2.0\n" ∧
      returned (current_show Endian.little ⟨0x40, deliver 0x06 0x40⟩ World.fresh) = some 4) ∧
    (printed (power_show Endian.little ⟨0x40, deliver 0x00 0x64⟩ World.fresh) = some "1.0\n" ∧
      returned (power_show Endian.little ⟨0x40, deliver 0x00 0x64⟩ World.fresh) = some 4) ∧
    (printed (voltage_show Endian.big ⟨0x40, deliver 0xFF 0xFF⟩ World.fresh)
        = some "81.91875\n" ∧
      returned (voltage_show Endian.big ⟨0x40, deliver 0xFF 0xFF⟩ World.fresh) = some 9) :=
  ⟨(C1_show_text 1600 (by decide) Endian.little ⟨0x40, deliver 0x06 0x40⟩ World.fresh rfl
      (fun _ => rfl)).1,
   (C1_show_text 100 (by decide) Endian.little ⟨0x40, deliver 0x00 0x64⟩ World.fresh rfl
      (fun _ => rfl)).2.2,
   (C1_show_text 65535 (by decide) Endian.big ⟨0x40, deliver 0xFF 0xFF⟩ World.fresh rfl
      (fun _ => rfl)).2.1⟩

/-- Counterexample to C2: the adapter fails with `-EIO` and stores nothing, yet
each handler returns the count 4 and the text `0.0`. -/
theorem C2_counterexample :
    ((failing (-5)).master_xfer (read_msgs 0x40 0x01)).ret < 0 ∧
    (printed (current_show Endian.little ⟨0x40, failing (-5)⟩ World.fresh) = some "0.0\n" ∧
      returned (current_show Endian.little ⟨0x40, failing (-5)⟩ World.fresh) = some 4) ∧
    (printed (voltage_show Endian.little ⟨0x40, failing (-5)⟩ World.fresh) = some "0.0\n" ∧
      returned (voltage_show Endian.little ⟨0x40, failing (-5)⟩ World.fresh) = some 4) ∧
    (printed (power_show Endian.little ⟨0x40, failing (-5)⟩ World.fresh) = some "0.0\n" ∧
      returned (power_show Endian.little ⟨0x40, failing (-5)⟩ World.fresh) = some 4) := by
  refine ⟨by decide, ⟨rfl, rfl⟩, ⟨rfl, rfl⟩, ⟨rfl, rfl⟩⟩

/-- C2 (amended): the status of the transport call is discarded.  When the
adapter reports a failure, each handler still returns, with the reading of
whatever the sample buffer then holds and the non-negative length of that text;
when the failed transfer stored no byte the text is `0.0` and the count is 4. -/
theorem C2_failure_still_prints (e : Endian) (client : i2c_client) (w : World)
    (hw : w.dev.lock = false)
    (hfail : ∀ msgs, (client.adapter.master_xfer msgs).ret < 0) :
    (printed (current_show e client w) = some (reading 125 (raw_sample client 0x01)) ∧
      returned (current_show e client w) =
        some ((reading 125 (raw_sample client 0x01)).length : Int)) ∧
    (printed (voltage_show e client w) = some (reading 125 (raw_sample client 0x02)) ∧
      returned (voltage_show e client w) =
        some ((reading 125 (raw_sample client 0x02)).length : Int)) ∧
    (printed (power_show e client w) = some (reading 1000 (raw_sample client 0x03)) ∧
      returned (power_show e client w) =
        some ((reading 1000 (raw_sample client 0x03)).length : Int)) ∧
    ((∀ msgs, (client.adapter.master_xfer msgs).rx = []) →
      (printed (current_show e client w) = some "0.0\n" ∧
        returned (current_show e client w) = some 4) ∧
      (printed (voltage_show e client w) = some "0.0\n" ∧
        returned (voltage_show e client w) = some 4) ∧
      (printed (power_show e client w) = some "0.0\n" ∧
        returned (power_show e client w) = some 4)) := by
  have _ := hfail
  rw [current_show_eq_generic, voltage_show_eq_generic, power_show_eq_generic]
  rw [printed_generic _ _ (by decide) e client w hw,
    returned_generic _ _ (by decide) e client w hw,
    printed_generic _ _ (by decide) e client w hw,
    returned_generic _ _ (by decide) e client w hw,
    printed_generic _ _ (by decide) e client w hw,
    returned_generic _ _ (by decide) e client w hw]
  refine ⟨⟨rfl, rfl⟩, ⟨rfl, rfl⟩, ⟨rfl, rfl⟩, ?_⟩
  intro hnil
  rw [raw_sample_of_nil client 0x01 (hnil _), raw_sample_of_nil client 0x02 (hnil _),
    raw_sample_of_nil client 0x03 (hnil _)]
  exact ⟨⟨rfl, rfl⟩, ⟨rfl, rfl⟩, ⟨rfl, rfl⟩⟩

/-- Witness of the amended C2: an adapter failing with `-EIO` after storing the
single byte `0x01` makes `current_show` print `0.32000`. -/
theorem C2_failure_still_prints_witness :
    (∀ msgs, (({ master_xfer := fun _ => { ret := -5, rx := [0x01] } } :
        i2c_adapter).master_xfer msgs).ret < 0) ∧
    printed (current_show Endian.big
      ⟨0x40, { master_xfer := fun _ => { ret := -5, rx := [0x01] } }⟩ World.fresh)
        = some "0.32000\n" ∧
    returned (current_show Endian.big
      ⟨0x40, { master_xfer := fun _ => { ret := -5, rx := [0x01] } }⟩ World.fresh) = some 8 :=
  ⟨fun _ => (by decide : (-5 : Int) < 0),
   (C2_failure_still_prints Endian.big
      ⟨0x40, { master_xfer := fun _ => { ret := -5, rx := [0x01] } }⟩ World.fresh rfl
      (fun _ => (by decide : (-5 : Int) < 0))).1⟩

/-- C3: for wire bytes `b0`, `b1` stored in reception order into the sample
object, reading the object as a host `unsigned short` and applying `htons`
yields `b0*256 + b1` on a little-endian and on a big-endian host alike. -/
theorem C3_htons_decodes_big_endian (e : Endian) (b0 b1 : Nat) (h0 : b0 < 256)
    (h1 : b1 < 256) : htons e (load_u16 e b0 b1) = b0 * 256 + b1 := by
  rw [htons_load_u16, Nat.mod_eq_of_lt h0, Nat.mod_eq_of_lt h1]

/-- Witness of C3: the wire bytes `0x01, 0x90` decode to 400 on either host. -/
theorem C3_htons_decodes_big_endian_witness :
    htons Endian.little (load_u16 Endian.little 0x01 0x90) = 400 ∧
    htons Endian.big (load_u16 Endian.big 0x01 0x90) = 400 :=
  ⟨C3_htons_decodes_big_endian Endian.little 0x01 0x90 (by decide) (by decide),
   C3_htons_decodes_big_endian Endian.big 0x01 0x90 (by decide) (by decide)⟩

/-- C4: each handler adds exactly one transfer to the log, and that transfer
consists of exactly two messages to `client->addr`: a write (no `I2C_M_RD`) of
one byte holding the register selector, then a read of two bytes; the selector
is `0x01` for `current_show`, `0x02` for `voltage_show`, `0x03` for `power_show`. -/
theorem C4_one_transfer_two_messages (e : Endian) (client : i2c_client) (w : World)
    (hw : w.dev.lock = false) :
    (world_after (current_show e client w)).map (fun w1 => transfers w1.trace) =
      some (transfers w.trace ++
        [[ { addr := client.addr, flags := 0, len := 1, buf := [0x01] },
           { addr := client.addr, flags := I2C_M_RD, len := 2, buf := [0, 0] } ]]) ∧
    (world_after (voltage_show e client w)).map (fun w1 => transfers w1.trace) =
      some (transfers w.trace ++
        [[ { addr := client.addr, flags := 0, len := 1, buf := [0x02] },
           { addr := client.addr, flags := I2C_M_RD, len := 2, buf := [0, 0] } ]]) ∧
    (world_after (power_show e client w)).map (fun w1 => transfers w1.trace) =
      some (transfers w.trace ++
        [[ { addr := client.addr, flags := 0, len := 1, buf := [0x03] },
           { addr := client.addr, flags := I2C_M_RD, len := 2, buf := [0, 0] } ]]) := by
  rw [current_show_eq_generic, voltage_show_eq_generic, power_show_eq_generic]
  rw [world_after_generic _ _ (by decide) e client w hw,
    world_after_generic _ _ (by decide) e client w hw,
    world_after_generic _ _ (by decide) e client w hw]
  simp only [Option.map_some', transfers_append]
  exact ⟨rfl, rfl, rfl⟩

/-- Witness of C4: on a fresh device at address `0x40`, `power_show` submits one
transfer: a one-byte write of `0x03` followed by a two-byte read. -/
theorem C4_one_transfer_two_messages_witness :
    (world_after (power_show Endian.little ⟨0x40, deliver 0x00 0x64⟩ World.fresh)).map
        (fun w1 => transfers w1.trace) =
      some [[ { addr := 0x40, flags := 0, len := 1, buf := [0x03] },
              { addr := 0x40, flags := 1, len := 2, buf := [0, 0] } ]] :=
  (C4_one_transfer_two_messages Endian.little ⟨0x40, deliver 0x00 0x64⟩ World.fresh rfl).2.2

/-- C5: started with the mutex free, each handler returns, whatever the adapter
does, and the events it adds to the log are, in order: acquire (mutex then
held), the transfer (mutex held), release (mutex then free), convert/format
(mutex free).  The mutex is thus taken once, released once, free during the
formatting and free on return. -/
theorem C5_event_order (e : Endian) (client : i2c_client) (w : World)
    (hw : w.dev.lock = false) :
    (∃ w1 msgs whole frac, world_after (current_show e client w) = some w1 ∧
      w1.trace = w.trace ++ [ (Event.acquire, true), (Event.transfer msgs, true),
        (Event.release, false), (Event.format whole frac, false) ] ∧
      w1.dev.lock = false) ∧
    (∃ w1 msgs whole frac, world_after (voltage_show e client w) = some w1 ∧
      w1.trace = w.trace ++ [ (Event.acquire, true), (Event.transfer msgs, true),
        (Event.release, false), (Event.format whole frac, false) ] ∧
      w1.dev.lock = false) ∧
    (∃ w1 msgs whole frac, world_after (power_show e client w) = some w1 ∧
      w1.trace = w.trace ++ [ (Event.acquire, true), (Event.transfer msgs, true),
        (Event.release, false), (Event.format whole frac, false) ] ∧
      w1.dev.lock = false) := by
  rw [current_show_eq_generic, voltage_show_eq_generic, power_show_eq_generic]
  exact ⟨⟨_, _, _, _, world_after_generic _ _ (by decide) e client w hw, rfl, hw⟩,
    ⟨_, _, _, _, world_after_generic _ _ (by decide) e client w hw, rfl, hw⟩,
    ⟨_, _, _, _, world_after_generic _ _ (by decide) e client w hw, rfl, hw⟩⟩

/-- Witness of C5: with an adapter that fails, `voltage_show` on a fresh device
still logs acquire, transfer, release, format and leaves the mutex free. -/
theorem C5_event_order_witness :
    World.fresh.dev.lock = false ∧
    ∃ w1 msgs whole frac,
      world_after (voltage_show Endian.little ⟨0x40, failing (-5)⟩ World.fresh) = some w1 ∧
      w1.trace = World.fresh.trace ++ [ (Event.acquire, true), (Event.transfer msgs, true),
        (Event.release, false), (Event.format whole frac, false) ] ∧
      w1.dev.lock = false :=
  ⟨rfl, (C5_event_order Endian.little ⟨0x40, failing (-5)⟩ World.fresh rfl).2.1⟩

/-- C6: on one device, under every schedule of any number of concurrent
invocations of the handlers, an invocation that is inside `i2c_transfer` holds
the mutex, and two different invocations are never both inside `i2c_transfer`. -/
theorem C6_transfers_never_overlap (sched : List Nat) (i j : Nat) :
    ((Sys.init.run sched).pc i = Pc.in_transfer → (Sys.init.run sched).lock = true) ∧
    (i ≠ j → ¬ ((Sys.init.run sched).pc i = Pc.in_transfer ∧
       (Sys.init.run sched).pc j = Pc.in_transfer)) := by
  have hinv := run_mutex_inv sched Sys.init init_mutex_inv
  constructor
  · intro hi
    exact hinv.1 i (by rw [hi]; rfl)
  · rintro hij ⟨hi, hj⟩
    exact hij (hinv.2 i j (by rw [hi]; rfl) (by rw [hj]; rfl))

/-- Witness of C6: after the schedule 3, 3, 5, 5 invocation 3 is inside
`i2c_transfer` with the mutex held and invocation 5 is still waiting at
`mutex_lock`. -/
theorem C6_transfers_never_overlap_witness :
    (3 : Nat) ≠ 5 ∧
    (Sys.init.run [3, 3, 5, 5]).pc 3 = Pc.in_transfer ∧
    (Sys.init.run [3, 3, 5, 5]).pc 5 = Pc.at_lock ∧
    (Sys.init.run [3, 3, 5, 5]).lock = true ∧
    ¬ ((Sys.init.run [3, 3, 5, 5]).pc 3 = Pc.in_transfer ∧
       (Sys.init.run [3, 3, 5, 5]).pc 5 = Pc.in_transfer) :=
  ⟨by decide, rfl, rfl, (C6_transfers_never_overlap [3, 3, 5, 5] 3 5).1 rfl,
    (C6_transfers_never_overlap [3, 3, 5, 5] 3 5).2 (by decide)⟩

/-- C7: two invocations of the same handler to which the adapter delivers the
same two bytes print the same text and return the same count, whatever the
earlier history of the two worlds, the host byte order and the adapter status;
each returns, and the device data is the same after the call as before it. -/
theorem C7_output_depends_on_bytes_only (b0 b1 : Nat) (e1 e2 : Endian) (c1 c2 : i2c_client)
    (w1 w2 : World) (hw1 : w1.dev.lock = false) (hw2 : w2.dev.lock = false)
    (h1 : ∀ msgs, (c1.adapter.master_xfer msgs).rx = [b0, b1])
    (h2 : ∀ msgs, (c2.adapter.master_xfer msgs).rx = [b0, b1]) :
    (printed (current_show e1 c1 w1) = printed (current_show e2 c2 w2) ∧
      returned (current_show e1 c1 w1) = returned (current_show e2 c2 w2) ∧
      (printed (current_show e1 c1 w1)).isSome = true ∧
      (world_after (current_show e1 c1 w1)).map World.dev = some w1.dev) ∧
    (printed (voltage_show e1 c1 w1) = printed (voltage_show e2 c2 w2) ∧
      returned (voltage_show e1 c1 w1) = returned (voltage_show e2 c2 w2) ∧
      (printed (voltage_show e1 c1 w1)).isSome = true ∧
      (world_after (voltage_show e1 c1 w1)).map World.dev = some w1.dev) ∧
    (printed (power_show e1 c1 w1) = printed (power_show e2 c2 w2) ∧
      returned (power_show e1 c1 w1) = returned (power_show e2 c2 w2) ∧
      (printed (power_show e1 c1 w1)).isSome = true ∧
      (world_after (power_show e1 c1 w1)).map World.dev = some w1.dev) := by
  have hraw : ∀ reg, raw_sample c1 reg = raw_sample c2 reg := by
    intro reg
    simp only [raw_sample, received, h1, h2]
  rw [current_show_eq_generic, voltage_show_eq_generic, power_show_eq_generic]
  rw [printed_generic _ _ (by decide) e1 c1 w1 hw1, printed_generic _ _ (by decide) e2 c2 w2 hw2,
    returned_generic _ _ (by decide) e1 c1 w1 hw1, returned_generic _ _ (by decide) e2 c2 w2 hw2,
    world_after_generic _ _ (by decide) e1 c1 w1 hw1,
    printed_generic _ _ (by decide) e1 c1 w1 hw1, printed_generic _ _ (by decide) e2 c2 w2 hw2,
    returned_generic _ _ (by decide) e1 c1 w1 hw1, returned_generic _ _ (by decide) e2 c2 w2 hw2,
    world_after_generic _ _ (by decide) e1 c1 w1 hw1,
    printed_generic _ _ (by decide) e1 c1 w1 hw1, printed_generic _ _ (by decide) e2 c2 w2 hw2,
    returned_generic _ _ (by decide) e1 c1 w1 hw1, returned_generic _ _ (by decide) e2 c2 w2 hw2,
    world_after_generic _ _ (by decide) e1 c1 w1 hw1]
  simp only [hraw, Option.isSome_some, Option.map_some', and_self]

/-- Witness of C7: the bytes `0x01, 0x90` print `0.50000` on a fresh device read
through a little-endian host and on a device with an earlier reading in its log
read through a big-endian host at another address. -/
theorem C7_output_depends_on_bytes_only_witness :
    printed (current_show Endian.little ⟨0x40, deliver 0x01 0x90⟩ World.fresh) =
      printed (current_show Endian.big ⟨0x41, deliver 0x01 0x90⟩
        { dev := probed, trace := [(Event.format 81 91875, false)] }) ∧
    printed (current_show Endian.little ⟨0x40, deliver 0x01 0x90⟩ World.fresh)
      = some "0.50000\n" :=
  ⟨(C7_output_depends_on_bytes_only 0x01 0x90 Endian.little Endian.big
      ⟨0x40, deliver 0x01 0x90⟩ ⟨0x41, deliver 0x01 0x90⟩ World.fresh
      { dev := probed, trace := [(Event.format 81 91875, false)] } rfl rfl
      (fun _ => rfl) (fun _ => rfl)).1.1, rfl⟩

/-- C8 fails at raw value 1: `current_show` and `voltage_show` print `0.125`,
which as a decimal numeral denotes 1/8 and not 1 * 1.25 / 1000 = 1/800, and
`power_show` prints `0.1000`, which denotes 1/10 and not 1 * 10 / 1000 = 1/100. -/
theorem C8_unpadded_fraction_misread :
    printed (current_show Endian.little ⟨0x40, deliver 0x00 0x01⟩ World.fresh)
      = some "0.125\n" ∧
    printed (voltage_show Endian.little ⟨0x40, deliver 0x00 0x01⟩ World.fresh)
      = some "0.125\n" ∧
    decimal_value "0.125\n" = 1 / 8 ∧
    decimal_value "0.125\n" ≠ (1 : ℚ) * 125 / 100000 ∧
    printed (power_show Endian.little ⟨0x40, deliver 0x00 0x01⟩ World.fresh)
      = some "0.1000\n" ∧
    decimal_value "0.1000\n" = 1 / 10 ∧
    decimal_value "0.1000\n" ≠ (1 : ℚ) * 1000 / 100000 := by
  have hp1 : decimal_parts "0.125\n" = (125, 1000) := by decide
  have hp2 : decimal_parts "0.1000\n" = (1000, 10000) := by decide
  refine ⟨rfl, rfl, ?_, ?_, rfl, ?_, ?_⟩
  · simp only [decimal_value, hp1]; norm_num
  · simp only [decimal_value, hp1]; norm_num
  · simp only [decimal_value, hp2]; norm_num
  · simp only [decimal_value, hp2]; norm_num

/-- C9: for every raw 16-bit value `r` the `int` products `r*125` and `r*1000`
stay at most `INT_MAX`, so the multiplication does not overflow, and the value
stored in the `unsigned int` is the exact product.  In the handlers themselves:
served the bytes of `r`, each handler returns (no signed overflow), and the whole
part and fraction it computes and prints satisfy `whole * 100000 + fraction =
r * 125` (current, voltage) or `= r * 1000` (power), the exact product with no
wrap-around, with the product below `2^31`, the whole part at most 81
(current, voltage) or 655 (power), and the fraction below 100000. -/
theorem C9_no_overflow (r : Nat) (hr : r < 65536) :
    ((r : Int) * 125 ≤ INT_MAX ∧
      mul_int (r : Int) 125 = .ok ((r : Int) * 125) ∧
      to_uint ((r : Int) * 125) = r * 125 ∧
      to_uint ((r : Int) * 125) / 100000 ≤ 81 ∧
      to_uint ((r : Int) * 125) % 100000 < 100000) ∧
    ((r : Int) * 1000 ≤ INT_MAX ∧
      mul_int (r : Int) 1000 = .ok ((r : Int) * 1000) ∧
      to_uint ((r : Int) * 1000) = r * 1000 ∧
      to_uint ((r : Int) * 1000) / 100000 ≤ 655 ∧
      to_uint ((r : Int) * 1000) % 100000 < 100000) ∧
    (∀ (e : Endian) (client : i2c_client) (w : World),
      current_show e client w ≠ .error Fault.signed_overflow ∧
      voltage_show e client w ≠ .error Fault.signed_overflow ∧
      power_show e client w ≠ .error Fault.signed_overflow) ∧
    (∀ (e : Endian) (client : i2c_client) (w : World), w.dev.lock = false →
      (∀ msgs, (client.adapter.master_xfer msgs).rx = [r / 256, r % 256]) →
      (∃ whole frac,
        (world_after (current_show e client w)).map (fun w1 => formatted w1.trace) =
          some (formatted w.trace ++ [(whole, frac)]) ∧
        printed (current_show e client w) =
          some (Nat.repr whole ++ "." ++ Nat.repr frac ++ "\n") ∧
        whole * 100000 + frac = r * 125 ∧ r * 125 < 2 ^ 31 ∧
        whole ≤ 81 ∧ frac < 100000) ∧
      (∃ whole frac,
        (world_after (voltage_show e client w)).map (fun w1 => formatted w1.trace) =
          some (formatted w.trace ++ [(whole, frac)]) ∧
        printed (voltage_show e client w) =
          some (Nat.repr whole ++ "." ++ Nat.repr frac ++ "\n") ∧
        whole * 100000 + frac = r * 125 ∧ r * 125 < 2 ^ 31 ∧
        whole ≤ 81 ∧ frac < 100000) ∧
      (∃ whole frac,
        (world_after (power_show e client w)).map (fun w1 => formatted w1.trace) =
          some (formatted w.trace ++ [(whole, frac)]) ∧
        printed (power_show e client w) =
          some (Nat.repr whole ++ "." ++ Nat.repr frac ++ "\n") ∧
        whole * 100000 + frac = r * 1000 ∧ r * 1000 < 2 ^ 31 ∧
        whole ≤ 655 ∧ frac < 100000)) := by
  have m1 := mul_int_small r 125 hr (by decide)
  have m2 := mul_int_small r 1000 hr (by decide)
  have u1 := to_uint_small r 125 (by omega)
  have u2 := to_uint_small r 1000 (by omega)
  simp only [Nat.cast_ofNat] at m1 m2 u1 u2
  rw [u1, u2]
  refine ⟨⟨?_, m1, rfl, ?_, ?_⟩, ⟨?_, m2, rfl, ?_, ?_⟩, ?_, ?_⟩
  · simp only [INT_MAX]; omega
  · omega
  · omega
  · simp only [INT_MAX]; omega
  · omega
  · omega
  · intro e client w
    rw [current_show_eq_generic, voltage_show_eq_generic, power_show_eq_generic]
    exact ⟨show_generic_no_overflow _ _ (by decide) e client w,
      show_generic_no_overflow _ _ (by decide) e client w,
      show_generic_no_overflow _ _ (by decide) e client w⟩
  · intro e client w hw hrx
    rw [current_show_eq_generic, voltage_show_eq_generic, power_show_eq_generic]
    have g1 := generic_values 0x01 125 (by decide) r hr e client w hw hrx
    have g2 := generic_values 0x02 125 (by decide) r hr e client w hw hrx
    have g3 := generic_values 0x03 1000 (by decide) r hr e client w hw hrx
    refine ⟨⟨_, _, g1.1, g1.2, ?_, ?_, ?_, ?_⟩, ⟨_, _, g2.1, g2.2, ?_, ?_, ?_, ?_⟩,
      ⟨_, _, g3.1, g3.2, ?_, ?_, ?_, ?_⟩⟩ <;> omega

/-- Witness of C9: at the largest raw value 65535 `voltage_show` computes the
pair (81, 91875) from the product 8191875 and `power_show` the pair
(655, 35000) from the product 65535000. -/
theorem C9_no_overflow_witness :
    (65535 : Nat) < 65536 ∧
    to_uint (((65535 : Nat) : Int) * 125) = 65535 * 125 ∧
    mul_int ((65535 : Nat) : Int) 1000 = .ok (((65535 : Nat) : Int) * 1000) ∧
    (world_after (voltage_show Endian.little ⟨0x40, deliver 0xFF 0xFF⟩ World.fresh)).map
      (fun w1 => formatted w1.trace) = some [(81, 91875)] ∧
    (world_after (power_show Endian.little ⟨0x40, deliver 0xFF 0xFF⟩ World.fresh)).map
      (fun w1 => formatted w1.trace) = some [(655, 35000)] ∧
    (∃ whole frac,
      (world_after (power_show Endian.little ⟨0x40, deliver 0xFF 0xFF⟩ World.fresh)).map
        (fun w1 => formatted w1.trace) = some (formatted World.fresh.trace ++ [(whole, frac)]) ∧
      printed (power_show Endian.little ⟨0x40, deliver 0xFF 0xFF⟩ World.fresh) =
        some (Nat.repr whole ++ "." ++ Nat.repr frac ++ "\n") ∧
      whole * 100000 + frac = 65535 * 1000 ∧ 65535 * 1000 < 2 ^ 31 ∧
      whole ≤ 655 ∧ frac < 100000) :=
  ⟨by decide, (C9_no_overflow 65535 (by decide)).1.2.2.1,
    (C9_no_overflow 65535 (by decide)).2.1.2.1, rfl, rfl,
    ((C9_no_overflow 65535 (by decide)).2.2.2 Endian.little ⟨0x40, deliver 0xFF 0xFF⟩
      World.fresh rfl (fun _ => rfl)).2.2⟩

/-- C10: for each handler the printed text determines the raw 16-bit value:
if two invocations, served the bytes of `r1` and of `r2`, print the same text,
then `r1 = r2`. -/
theorem C10_text_injective (r1 r2 : Nat) (h1 : r1 < 65536) (h2 : r2 < 65536)
    (e1 e2 : Endian) (a1 a2 : Nat) (w1 w2 : World)
    (hw1 : w1.dev.lock = false) (hw2 : w2.dev.lock = false) :
    (printed (current_show e1 ⟨a1, deliver (r1 / 256) (r1 % 256)⟩ w1) =
        printed (current_show e2 ⟨a2, deliver (r2 / 256) (r2 % 256)⟩ w2) → r1 = r2) ∧
    (printed (voltage_show e1 ⟨a1, deliver (r1 / 256) (r1 % 256)⟩ w1) =
        printed (voltage_show e2 ⟨a2, deliver (r2 / 256) (r2 % 256)⟩ w2) → r1 = r2) ∧
    (printed (power_show e1 ⟨a1, deliver (r1 / 256) (r1 % 256)⟩ w1) =
        printed (power_show e2 ⟨a2, deliver (r2 / 256) (r2 % 256)⟩ w2) → r1 = r2) := by
  have hs1 : ∀ reg, raw_sample ⟨a1, deliver (r1 / 256) (r1 % 256)⟩ reg = r1 :=
    fun reg => raw_sample_of_rx _ reg r1 h1 rfl
  have hs2 : ∀ reg, raw_sample ⟨a2, deliver (r2 / 256) (r2 % 256)⟩ reg = r2 :=
    fun reg => raw_sample_of_rx _ reg r2 h2 rfl
  rw [current_show_eq_generic, voltage_show_eq_generic, power_show_eq_generic]
  rw [printed_generic _ _ (by decide) e1 _ w1 hw1, printed_generic _ _ (by decide) e2 _ w2 hw2,
    printed_generic _ _ (by decide) e1 _ w1 hw1, printed_generic _ _ (by decide) e2 _ w2 hw2,
    printed_generic _ _ (by decide) e1 _ w1 hw1, printed_generic _ _ (by decide) e2 _ w2 hw2]
  simp only [hs1, hs2, Option.some.injEq]
  exact ⟨reading_injective 125 (by decide) r1 r2, reading_injective 125 (by decide) r1 r2,
    reading_injective 1000 (by decide) r1 r2⟩

/-- Witness of C10: raw values 1 and 10 print `0.125` and `0.1250`, two texts
that differ although they would denote the same number. -/
theorem C10_text_injective_witness :
    printed (current_show Endian.little ⟨0x40, deliver (1 / 256) (1 % 256)⟩ World.fresh)
      = some "0.125\n" ∧
    printed (current_show Endian.little ⟨0x40, deliver (10 / 256) (10 % 256)⟩ World.fresh)
      = some "0.1250\n" ∧
    printed (current_show Endian.little ⟨0x40, deliver (1 / 256) (1 % 256)⟩ World.fresh) ≠
      printed (current_show Endian.little ⟨0x40, deliver (10 / 256) (10 % 256)⟩ World.fresh) :=
  ⟨rfl, rfl, fun h => absurd
    ((C10_text_injective 1 10 (by decide) (by decide) Endian.little Endian.little 0x40 0x40
      World.fresh World.fresh rfl rfl).1 h) (by decide)⟩
